import Mathlib

/-!
Verification of the Centerlink Technologies employee-cards client
(`main.js`) against its natural-language specification.

The JavaScript source is shallowly embedded: pure string helpers become
Lean functions over `String`; the DOM bio markup becomes a list of nodes;
the asynchronous directory resolver becomes a fold over an explicit
arrival order of lookup completions; JSZip archives become path-indexed
maps built by successive writes.  JavaScript strings are modelled over
ASCII (`Char.toLower`, whitespace set) since every claim is about ASCII
data.
-/

namespace EmployeeCards

/-! ## JavaScript string primitives -/

/-- The whitespace characters matched by the regex class `\s` and by
`String.prototype.trim`, restricted to the ASCII range. -/
def jsIsSpace (c : Char) : Bool :=
  c = ' ' || c = '\t' || c = '\n' || c = '\r' || c = '\x0b' || c = '\x0c'

/-- `String.prototype.toLowerCase`, ASCII model: lowercases `A`–`Z`. -/
def jsToLower (s : String) : String :=
  String.mk (s.data.map Char.toLower)

/-- `String.prototype.trim`: drops whitespace from both ends. -/
def jsTrim (s : String) : String :=
  String.mk (((s.data.dropWhile jsIsSpace).reverse.dropWhile jsIsSpace).reverse)

/-- One pass of `.replace(/\s+/g, '-')`: every maximal run of whitespace
becomes a single hyphen.  `prevSpace` records whether the previous
character was part of a whitespace run already replaced. -/
def collapseWsAux : List Char → Bool → List Char
  | [], _ => []
  | c :: rest, prevSpace =>
    if jsIsSpace c then
      (if prevSpace then [] else ['-']) ++ collapseWsAux rest true
    else
      c :: collapseWsAux rest false

/-- `str.replace(/\s+/g, '-')`. -/
def jsCollapseWs (s : String) : String :=
  String.mk (collapseWsAux s.data false)

/-! ## Record Model helpers (`main.js` lines 833–885) -/

/-- `generateSlug` (main.js:833): `(firstName + '-' + lastName)
.toLowerCase().trim().replace(/\s+/g, '-')`. -/
def generateSlug (firstName lastName : String) : String :=
  jsCollapseWs (jsTrim (jsToLower (firstName ++ "-" ++ lastName)))

/-- Splitting a character list at every occurrence of a separator; the
computable core of `filename.split('.')`. -/
def splitOnChar : List Char → Char → List (List Char)
  | [], _ => [[]]
  | c :: rest, sep =>
    if c = sep then [] :: splitOnChar rest sep
    else
      match splitOnChar rest sep with
      | [] => [[c]]
      | h :: t => (c :: h) :: t

/-- `getFileExtension` (main.js:882): splits on `'.'` and returns
`'.' + last part` when there was at least one dot, else `''`.
The split never returns `[]`, so `getLastD` is the total form of the
source's `parts[parts.length - 1]`. -/
def getFileExtension (filename : String) : String :=
  let parts := (splitOnChar filename.data '.').map String.mk
  if parts.length > 1 then "." ++ parts.getLastD "" else ""

/-- The site base path constant `BASE_URL` (main.js:809). -/
def BASE_URL : String := "/employee-cards"

/-- The absolute base constant `FULL_BASE_URL` (main.js:811). -/
def FULL_BASE_URL : String := "https://centerlink-technologies.github.io/employee-cards"

/-- Characters `encodeURIComponent` leaves unescaped. -/
def uriUnreserved (c : Char) : Bool :=
  c.isAlphanum || c = '-' || c = '_' || c = '.' || c = '!' ||
    c = '~' || c = '*' || c = '\'' || c = '(' || c = ')'

/-- Uppercase hex digit of a value below 16. -/
def hexDigit (n : Nat) : Char :=
  if n < 10 then Char.ofNat (48 + n) else Char.ofNat (55 + n)

/-- Percent-encoding of one byte, `%XX` with uppercase hex. -/
def percentEncodeByte (b : UInt8) : String :=
  "%" ++ String.singleton (hexDigit (b.toNat / 16)) ++ String.singleton (hexDigit (b.toNat % 16))

/-- JavaScript `encodeURIComponent`: unreserved characters pass through,
every other character is replaced by the percent-encoding of its UTF-8
bytes. -/
def encodeURIComponent (s : String) : String :=
  s.data.foldl
    (fun acc c =>
      if uriUnreserved c then acc.push c
      else acc ++ String.join (((String.singleton c).toUTF8.toList).map percentEncodeByte))
    ""

/-- `buildProfileUrl` (main.js:845):
`FULL_BASE_URL + '/profile.html?person=' + encodeURIComponent(slug)`. -/
def buildProfileUrl (slug : String) : String :=
  FULL_BASE_URL ++ "/profile.html?person=" ++ encodeURIComponent slug

/-! ## Employee record (§3 of the spec; object literal at main.js:1186) -/

/-- The employee record: field-for-field the object literal built in
`handleFormSubmit` (main.js:1186–1198).  `phone` and `linkedin` are
`Option String` since the source stores `phone || null`. -/
structure Employee where
  slug : String
  firstName : String
  lastName : String
  title : String
  department : String
  email : String
  phone : Option String
  linkedin : Option String
  headshot : String
  bioHtml : String
  media : List String
deriving DecidableEq

/-- JavaScript truthiness of the `phone` field: `null` and `''` are
falsy. -/
def phoneTruthy : Option String → Bool
  | none => false
  | some s => s ≠ ""

/-- The `lines` array assembled by `buildVcard` (main.js:854–872): the
fixed prefix, then `TEL` pushed only when `employee.phone` is truthy,
then `URL` and `END`. -/
def buildVcardLines (e : Employee) : List String :=
  ["BEGIN:VCARD",
   "VERSION:3.0",
   "FN:" ++ e.firstName ++ " " ++ e.lastName,
   "N:" ++ e.lastName ++ ";" ++ e.firstName ++ ";;;",
   "TITLE:" ++ e.title,
   "ORG:Centerlink Technologies",
   "EMAIL:" ++ e.email]
  ++ (if phoneTruthy e.phone then ["TEL:" ++ (e.phone.getD "")] else [])
  ++ ["URL:" ++ buildProfileUrl e.slug,
      "END:VCARD"]

/-- `buildVcard` (main.js:854): the lines joined by CRLF. -/
def buildVcard (e : Employee) : String :=
  String.intercalate "\r\n" (buildVcardLines e)

/-- Modelled from the spec (§4.1 `deriveContactCard`): a vCard 3.0 text
with fields `FN`, `N`, `TITLE`, `ORG` (fixed organization name),
`EMAIL`, `TEL` present exactly when a phone is present, then `URL` (the
record's public profile address), joined with CRLF line terminators.
Written from the spec's words, to be compared with `buildVcard`. -/
def contactCardSpec (e : Employee) : String :=
  String.intercalate "\r\n"
    (["BEGIN:VCARD",
      "VERSION:3.0",
      "FN:" ++ e.firstName ++ " " ++ e.lastName,
      "N:" ++ e.lastName ++ ";" ++ e.firstName ++ ";;;",
      "TITLE:" ++ e.title,
      "ORG:Centerlink Technologies",
      "EMAIL:" ++ e.email]
     ++ (match e.phone with
         | some p => ["TEL:" ++ p]
         | none => [])
     ++ ["URL:" ++ buildProfileUrl e.slug,
         "END:VCARD"])

/-! ## Helper lemmas on the string primitives -/

/-- ASCII behaviour of `Char.toLower`, proved on the 128 cases. -/
theorem toLower_ascii_ofNat :
    ∀ n < 128, ((Char.ofNat n).toLower).toNat < 128 ∧
      ((Char.ofNat n).toLower).isUpper = false := by decide

theorem toLower_ascii (c : Char) (h : c.toNat < 128) :
    (c.toLower).toNat < 128 ∧ (c.toLower).isUpper = false := by
  have h2 := toLower_ascii_ofNat c.toNat h
  rwa [Char.ofNat_toNat] at h2

/-- Every character produced by whitespace collapsing is a hyphen or was
already in the input. -/
theorem mem_collapseWsAux {c : Char} :
    ∀ (l : List Char) (p : Bool), c ∈ collapseWsAux l p → c = '-' ∨ c ∈ l := by
  intro l
  induction l with
  | nil => intro p h; simp [collapseWsAux] at h
  | cons d rest ih =>
    intro p h
    simp only [collapseWsAux] at h
    by_cases hd : jsIsSpace d
    · simp only [hd, if_pos] at h
      rcases List.mem_append.mp h with h1 | h1
      · left
        rcases p with _ | _ <;> simp_all
      · rcases ih true h1 with h2 | h2
        · exact Or.inl h2
        · exact Or.inr (List.mem_cons_of_mem _ h2)
    · simp only [hd, if_neg, Bool.false_eq_true, not_false_iff] at h
      rcases List.mem_cons.mp h with h1 | h1
      · exact Or.inr (h1 ▸ List.mem_cons_self _ _)
      · rcases ih false h1 with h2 | h2
        · exact Or.inl h2
        · exact Or.inr (List.mem_cons_of_mem _ h2)

theorem mem_jsTrim {c : Char} {s : String} (h : c ∈ (jsTrim s).data) :
    c ∈ s.data := by
  simp only [jsTrim] at h
  have h1 := List.mem_reverse.mp h
  have h2 := ((List.dropWhile_sublist _).subset h1)
  have h3 := List.mem_reverse.mp h2
  exact (List.dropWhile_sublist _).subset h3

theorem mem_jsToLower {c : Char} {s : String} (h : c ∈ (jsToLower s).data) :
    ∃ d ∈ s.data, c = d.toLower := by
  simp only [jsToLower] at h
  rcases List.mem_map.mp h with ⟨d, hd, hc⟩
  exact ⟨d, hd, hc.symm⟩

/-! ## Claim C4: slug derivation -/

/-- C4 counterexample: the spec example `("John", " Doe ") → "john-doe"`
fails on the code.  `generateSlug` joins the two names with `-` before
trimming and collapsing, so the internal space of `" Doe "` adjacent to
the joining hyphen yields a second hyphen: the result is `"john--doe"`. -/
theorem generateSlug_spec_example_fails :
    generateSlug "John" " Doe " = "john--doe" ∧
      generateSlug "John" " Doe " ≠ "john-doe" := by
  constructor
  · decide
  · decide

/-- C4 (amended): `generateSlug` joins the names with `-`, then
lowercases, trims the ends, and collapses internal whitespace runs to
single hyphens — so whitespace adjacent to the joining hyphen produces
consecutive hyphens, and `("John", " Doe ")` yields `"john--doe"`; for
already-ASCII input the result contains only ASCII characters none of
which is an uppercase letter (hyphens included). -/
theorem generateSlug_amended (a b : String)
    (h : ((a ++ "-" ++ b).data.all fun c => decide (c.toNat < 128)) = true) :
    generateSlug "John" " Doe " = "john--doe" ∧
      ((generateSlug a b).data.all fun c =>
        decide (c.toNat < 128) && !c.isUpper) = true := by
  refine ⟨by decide, ?_⟩
  rw [List.all_eq_true] at h ⊢
  intro c hc
  have hmem : c ∈ collapseWsAux (jsTrim (jsToLower (a ++ "-" ++ b))).data false := hc
  rcases mem_collapseWsAux _ _ hmem with hcase | hcase
  · subst hcase; decide
  · rcases mem_jsToLower (mem_jsTrim hcase) with ⟨d, hd, rfl⟩
    have hd128 : d.toNat < 128 := of_decide_eq_true (h d hd)
    have hres := toLower_ascii d hd128
    simp [hres.1, hres.2]

/-- Concrete instance of `generateSlug_amended` at the spec's own
example input. -/
theorem generateSlug_amended_witness :
    ((("John" ++ "-" ++ " Doe ").data.all fun c => decide (c.toNat < 128)) = true) ∧
      (generateSlug "John" " Doe " = "john--doe" ∧
        ((generateSlug "John" " Doe ").data.all fun c =>
          decide (c.toNat < 128) && !c.isUpper) = true) :=
  ⟨by decide, generateSlug_amended "John" " Doe " (by decide)⟩

/-! ## Claim C3: contact-card generation -/

/-- JavaScript `String.prototype.startsWith`, via the structural
character-list prefix test (which kernel-reduces). -/
def jsStartsWith (s pre : String) : Bool :=
  pre.data.isPrefixOf s.data

theorem isPrefixOf_cons_ne {a b : Char} (h : (a == b) = false) (as bs : List Char) :
    (a :: as).isPrefixOf (b :: bs) = false := by
  simp [List.isPrefixOf, h]

/-- C3: `buildVcard` produces exactly the spec's contact card — the
fixed field sequence BEGIN, VERSION, FN, N, TITLE, ORG (constant
organization), EMAIL, TEL exactly when a phone is present, URL (the
profile address), END, joined by CRLF — and the lines carry exactly one
`TEL:` line when a phone is present and none otherwise.  The record
invariant `phone ≠ some ""` (§3: absent is `null`, never the empty
string) is assumed.  Byte-reproducibility is immediate since
`buildVcard` is a pure function of the record. -/
theorem buildVcard_correct (e : Employee) (hphone : e.phone ≠ some "") :
    buildVcard e = contactCardSpec e ∧
      (buildVcardLines e).countP (fun l => jsStartsWith l "TEL:") =
        (match e.phone with | none => 0 | some _ => 1) := by
  have hTEL : ∀ p : String, jsStartsWith ("TEL:" ++ p) "TEL:" = true := by
    intro p
    simp [jsStartsWith, List.isPrefixOf]
  have hothers :
      (List.countP (fun l => jsStartsWith l "TEL:")
        ["URL:" ++ buildProfileUrl e.slug, "END:VCARD"]) = 0 := by
    simp [List.countP_cons, List.countP_nil, jsStartsWith, List.isPrefixOf]
  cases hp : e.phone with
  | none =>
    constructor
    · simp [buildVcard, contactCardSpec, buildVcardLines, phoneTruthy, hp]
    · simp [buildVcardLines, phoneTruthy, hp, List.countP_append, List.countP_cons,
        List.countP_nil, jsStartsWith, List.isPrefixOf]
  | some p =>
    have hpne : p ≠ "" := fun h => hphone (by rw [hp, h])
    constructor
    · simp [buildVcard, contactCardSpec, buildVcardLines, phoneTruthy, hp, hpne]
    · simp [buildVcardLines, phoneTruthy, hp, hpne, List.countP_append, List.countP_cons,
        List.countP_nil, jsStartsWith, List.isPrefixOf]

/-- Concrete instance of `buildVcard_correct`: a record with a phone. -/
theorem buildVcard_correct_witness :
    ((some "555-0100" : Option String) ≠ some "") ∧
      (buildVcard
          { slug := "john--doe", firstName := "John", lastName := "Doe",
            title := "Engineer", department := "R&D", email := "jd@x.com",
            phone := some "555-0100", linkedin := none,
            headshot := "headshot.jpg", bioHtml := "", media := [] } =
        contactCardSpec
          { slug := "john--doe", firstName := "John", lastName := "Doe",
            title := "Engineer", department := "R&D", email := "jd@x.com",
            phone := some "555-0100", linkedin := none,
            headshot := "headshot.jpg", bioHtml := "", media := [] } ∧
        (buildVcardLines
          { slug := "john--doe", firstName := "John", lastName := "Doe",
            title := "Engineer", department := "R&D", email := "jd@x.com",
            phone := some "555-0100", linkedin := none,
            headshot := "headshot.jpg", bioHtml := "", media := [] }).countP
            (fun l => jsStartsWith l "TEL:") = 1) :=
  ⟨by decide,
   buildVcard_correct
     { slug := "john--doe", firstName := "John", lastName := "Doe",
       title := "Engineer", department := "R&D", email := "jd@x.com",
       phone := some "555-0100", linkedin := none,
       headshot := "headshot.jpg", bioHtml := "", media := [] }
     (by decide)⟩

/-! ## Claim C2: embedded-image extraction

The bio markup is embedded as a sequence of nodes: image elements
(carrying their `src` and `title` attributes) and any other markup run.
The source's `bioHtmlWithLocalPaths.replace(img.src, filename)` — a
first-occurrence string replacement of the data-URL — is modelled as
replacing the `src` of the first image node still carrying that
data-URL, its node-level counterpart. -/

/-- A node of the bio markup: an `<img>` with its `src` and `title`
attributes, or any other markup run. -/
inductive BioNode where
  | img (src : String) (title : String)
  | elem (s : String)
deriving DecidableEq

/-- `extractMediaFromBio` (main.js:1217): collects every image whose
`src` starts with `data:`, keeping the data-URL and the filename handed
to `dataUrlToFile` — `img.title || 'image.gif'`. -/
def extractMediaFromBio (bio : List BioNode) : List (String × String) :=
  bio.filterMap fun n =>
    match n with
    | .img src title =>
        if jsStartsWith src "data:" then
          some (src, if title = "" then "image.gif" else title)
        else none
    | .elem _ => none

/-- The generated filename for the extracted image at forEach position
`index` (main.js:1176):
`'bio-image-' + (index + 1) + getFileExtension(img.file.name || '.gif')`. -/
def bioImageFilename (index : Nat) (fileName : String) : String :=
  "bio-image-" ++ toString (index + 1) ++
    getFileExtension (if fileName = "" then ".gif" else fileName)

/-- Replace the `src` of the first image node whose `src` equals the
given data-URL (node-level model of the source's first-occurrence string
replacement, main.js:1181). -/
def replaceFirstImgSrc : List BioNode → String → String → List BioNode
  | [], _, _ => []
  | .img s t :: rest, src, repl =>
      if s = src then .img repl t :: rest
      else .img s t :: replaceFirstImgSrc rest src repl
  | .elem s :: rest, src, repl => .elem s :: replaceFirstImgSrc rest src repl

/-- The `bioImages.forEach` loop of `handleFormSubmit`
(main.js:1174–1183), as a recursion carrying the forEach index: each
extracted image whose payload is a data-URL is pushed to `media` under
its generated filename and its occurrence in the markup is replaced. -/
def applyBioReplacements : List BioNode → List (String × String) → Nat → List BioNode × List String
  | acc, [], _ => (acc, [])
  | acc, (src, name) :: rest, k =>
      if jsStartsWith src "data:" then
        let fn := bioImageFilename k name
        let r := applyBioReplacements (replaceFirstImgSrc acc src fn) rest (k + 1)
        (r.1, fn :: r.2)
      else
        applyBioReplacements acc rest (k + 1)

/-- The bio-processing slice of `handleFormSubmit`: the rewritten markup
(`bioHtmlWithLocalPaths`) and the generated media filenames (the
record's `media` array). -/
def processBio (bio : List BioNode) : List BioNode × List String :=
  applyBioReplacements bio (extractMediaFromBio bio) 0

/-- Modelled from the spec (§4.2 embedded-image extraction), written
from the spec's words: walking the markup in document order, the k-th
inline-payload image (`k` counts extracted images, 1-indexed in the
generated name) is rewritten to its generated bare filename; external
references are untouched. -/
def bioRewriteSpec : List BioNode → Nat → List BioNode
  | [], _ => []
  | .img s t :: rest, k =>
      if jsStartsWith s "data:" then
        BioNode.img (bioImageFilename k (if t = "" then "image.gif" else t)) t
          :: bioRewriteSpec rest (k + 1)
      else BioNode.img s t :: bioRewriteSpec rest k
  | .elem s :: rest, k => BioNode.elem s :: bioRewriteSpec rest k

/-- Modelled from the spec (§4.2): the generated media filenames, in
document order. -/
def bioMediaSpec : List BioNode → Nat → List String
  | [], _ => []
  | .img s t :: rest, k =>
      if jsStartsWith s "data:" then
        bioImageFilename k (if t = "" then "image.gif" else t) :: bioMediaSpec rest (k + 1)
      else bioMediaSpec rest k
  | .elem _ :: rest, k => bioMediaSpec rest k

/-- No image node of `l` carries an inline data-URL payload. -/
def noDataImg (l : List BioNode) : Bool :=
  l.all fun n =>
    match n with
    | .img s _ => !(jsStartsWith s "data:")
    | .elem _ => true

theorem bioImageFilename_not_data (k : Nat) (name : String) :
    jsStartsWith (bioImageFilename k name) "data:" = false := by
  show List.isPrefixOf _ _ = false
  rw [bioImageFilename, String.data_append]
  exact isPrefixOf_cons_ne (by decide) _ _

theorem noDataImg_append {a b : List BioNode} :
    noDataImg (a ++ b) = (noDataImg a && noDataImg b) := by
  simp [noDataImg, List.all_append]

theorem noDataImg_cons (n : BioNode) (l : List BioNode) :
    noDataImg (n :: l) =
      ((match n with
        | BioNode.img s _ => !(jsStartsWith s "data:")
        | BioNode.elem _ => true) && noDataImg l) := by
  simp [noDataImg, List.all_cons]

/-- When no image before it still carries a data-URL, the replacement
hits exactly the image node holding the payload. -/
theorem replaceFirstImgSrc_append (pre : List BioNode) (s t repl : String)
    (rest : List BioNode) (hpre : noDataImg pre = true)
    (hs : jsStartsWith s "data:" = true) :
    replaceFirstImgSrc (pre ++ BioNode.img s t :: rest) s repl =
      pre ++ BioNode.img repl t :: rest := by
  induction pre with
  | nil => simp [replaceFirstImgSrc]
  | cons n pre ih =>
    rw [noDataImg_cons, Bool.and_eq_true] at hpre
    obtain ⟨hn, hpre'⟩ := hpre
    cases n with
    | img s' t' =>
      have hs' : jsStartsWith s' "data:" = false := by
        simpa using hn
      have hne : s' ≠ s := by
        intro h
        rw [h, hs] at hs'
        exact absurd hs' (by simp)
      simp only [List.cons_append, replaceFirstImgSrc, if_neg hne]
      exact congrArg _ (ih hpre')
    | elem x =>
      simp only [List.cons_append, replaceFirstImgSrc]
      exact congrArg _ (ih hpre')

/-- The forEach loop, run on the images extracted from `bio` appended
after an already-rewritten data-free prefix, produces exactly the
spec-side rewrite and media list. -/
theorem applyBioReplacements_spec (bio : List BioNode) :
    ∀ (pre : List BioNode) (k : Nat), noDataImg pre = true →
      applyBioReplacements (pre ++ bio) (extractMediaFromBio bio) k =
        (pre ++ bioRewriteSpec bio k, bioMediaSpec bio k) := by
  induction bio with
  | nil =>
    intro pre k _
    simp [extractMediaFromBio, applyBioReplacements, bioRewriteSpec, bioMediaSpec]
  | cons n rest ih =>
    intro pre k hpre
    cases n with
    | elem x =>
      have hx : extractMediaFromBio (BioNode.elem x :: rest) = extractMediaFromBio rest := by
        simp [extractMediaFromBio]
      have hpre' : noDataImg (pre ++ [BioNode.elem x]) = true := by
        rw [noDataImg_append, hpre, Bool.true_and, noDataImg_cons]
        rfl
      have hres := ih (pre ++ [BioNode.elem x]) k hpre'
      rw [hx, bioRewriteSpec, bioMediaSpec]
      simpa [List.append_assoc] using hres
    | img s t =>
      by_cases hs : jsStartsWith s "data:" = true
      · have hx : extractMediaFromBio (BioNode.img s t :: rest) =
            (s, if t = "" then "image.gif" else t) :: extractMediaFromBio rest := by
          simp [extractMediaFromBio, hs]
        have hrepl := replaceFirstImgSrc_append pre s t
          (bioImageFilename k (if t = "" then "image.gif" else t)) rest hpre hs
        have hpre' : noDataImg (pre ++
            [BioNode.img (bioImageFilename k (if t = "" then "image.gif" else t)) t]) = true := by
          rw [noDataImg_append, hpre, Bool.true_and, noDataImg_cons]
          simp [bioImageFilename_not_data, noDataImg]
        have hres := ih
          (pre ++ [BioNode.img (bioImageFilename k (if t = "" then "image.gif" else t)) t])
          (k + 1) hpre'
        rw [hx]
        simp only [applyBioReplacements, hs, if_pos]
        rw [hrepl]
        rw [show pre ++ BioNode.img (bioImageFilename k (if t = "" then "image.gif" else t)) t :: rest
              = (pre ++ [BioNode.img (bioImageFilename k (if t = "" then "image.gif" else t)) t]) ++ rest by
            simp]
        rw [hres]
        rw [bioRewriteSpec, bioMediaSpec]
        simp [hs]
      · have hsf : jsStartsWith s "data:" = false := by simpa using hs
        have hx : extractMediaFromBio (BioNode.img s t :: rest) = extractMediaFromBio rest := by
          simp [extractMediaFromBio, hsf]
        have hpre' : noDataImg (pre ++ [BioNode.img s t]) = true := by
          rw [noDataImg_append, hpre, Bool.true_and, noDataImg_cons]
          simp [hsf, noDataImg]
        have hres := ih (pre ++ [BioNode.img s t]) k hpre'
        rw [hx, bioRewriteSpec, bioMediaSpec]
        simp only [hsf, Bool.false_eq_true, if_neg, if_false]
        simpa [List.append_assoc] using hres

/-- The spec-side rewrite leaves no inline payload behind. -/
theorem noDataImg_bioRewriteSpec (bio : List BioNode) :
    ∀ k, noDataImg (bioRewriteSpec bio k) = true := by
  induction bio with
  | nil => intro k; rfl
  | cons n rest ih =>
    intro k
    cases n with
    | elem x =>
      rw [bioRewriteSpec, noDataImg_cons, ih k]
      rfl
    | img s t =>
      by_cases hs : jsStartsWith s "data:" = true
      · simp only [bioRewriteSpec, hs, if_pos]
        rw [noDataImg_cons, ih (k + 1)]
        simp [bioImageFilename_not_data]
      · have hsf : jsStartsWith s "data:" = false := by simpa using hs
        simp only [bioRewriteSpec, hsf, Bool.false_eq_true, if_neg, if_false]
        rw [noDataImg_cons, ih k]
        simp [hsf]

/-- C2: for every bio markup, the form-submission pipeline extracts each
inline data-URL image into the media list under the generated name
`bio-image-<n>` plus the inferred extension, 1-indexed in document
order, rewrites each such reference in the markup to that bare filename,
leaves external references untouched (all three captured by equality
with the spec-side `bioRewriteSpec`/`bioMediaSpec`), and leaves no
inline payload behind; in particular a bio with exactly two inline
images yields exactly the media entries `bio-image-1.png` and
`bio-image-2.gif` in document order and a rewritten markup with no
remaining payloads. -/
theorem processBio_correct (bio : List BioNode) :
    (processBio bio).1 = bioRewriteSpec bio 0 ∧
    (processBio bio).2 = bioMediaSpec bio 0 ∧
    noDataImg (processBio bio).1 = true ∧
    processBio
      [BioNode.elem "<p>Bio</p>",
       BioNode.img "data:image/png;base64,AAAA" "photo.png",
       BioNode.elem "<br>",
       BioNode.img "data:image/gif;base64,BBBB" "",
       BioNode.img "https://example.com/pic.jpg" "pic.jpg"] =
      ([BioNode.elem "<p>Bio</p>",
        BioNode.img "bio-image-1.png" "photo.png",
        BioNode.elem "<br>",
        BioNode.img "bio-image-2.gif" "",
        BioNode.img "https://example.com/pic.jpg" "pic.jpg"],
       ["bio-image-1.png", "bio-image-2.gif"]) := by
  have h := applyBioReplacements_spec bio [] 0 rfl
  rw [List.nil_append, List.nil_append] at h
  have h1 : (processBio bio).1 = bioRewriteSpec bio 0 := by
    rw [processBio, h]
  have h2 : (processBio bio).2 = bioMediaSpec bio 0 := by
    rw [processBio, h]
  refine ⟨h1, h2, ?_, by decide⟩
  rw [h1]
  exact noDataImg_bioRewriteSpec bio 0

/-! ## Claim C5: archive layout -/

/-- An uninterpreted byte payload (an uploaded file's contents). -/
abbrev Blob := List Nat

/-- The contents of one archive entry. -/
inductive ZipData where
  | text (s : String)
  | blob (b : Blob)
deriving DecidableEq

/-- One `folder.file(name, data)` call: JSZip maps the path to the data,
overwriting any previous entry at that path. -/
def zipFile (arc : String → Option ZipData) (path : String) (d : ZipData) :
    String → Option ZipData :=
  fun p => if p = path then some d else arc p

/-- Lowercase hex digit of a value below 16, as used by `JSON.stringify`
escapes. -/
def hexDigitLower (n : Nat) : Char :=
  if n < 10 then Char.ofNat (48 + n) else Char.ofNat (87 + n)

/-- The escape `JSON.stringify` applies to one character of a string. -/
def jsonEscapeChar (c : Char) : String :=
  if c = '"' then "\\\""
  else if c = '\\' then "\\\\"
  else if c = '\x08' then "\\b"
  else if c = '\t' then "\\t"
  else if c = '\n' then "\\n"
  else if c = '\x0c' then "\\f"
  else if c = '\r' then "\\r"
  else if c.toNat < 32 then
    "\\u00" ++ String.singleton (hexDigitLower (c.toNat / 16)) ++
      String.singleton (hexDigitLower (c.toNat % 16))
  else String.singleton c

/-- A JSON string literal. -/
def jsonStr (s : String) : String :=
  "\"" ++ String.join (s.data.map jsonEscapeChar) ++ "\""

/-- A JSON string or `null`, for the nullable `phone`/`linkedin`
fields. -/
def jsonStrOrNull : Option String → String
  | none => "null"
  | some s => jsonStr s

/-- `JSON.stringify(employeeData, null, 2)` (main.js:1253) on the fixed
record shape: keys in the insertion order of the object literal at
main.js:1186, two-space indentation. -/
def stringifyEmployee (e : Employee) : String :=
  "\x7b\n" ++
  "  \"slug\": " ++ jsonStr e.slug ++ ",\n" ++
  "  \"firstName\": " ++ jsonStr e.firstName ++ ",\n" ++
  "  \"lastName\": " ++ jsonStr e.lastName ++ ",\n" ++
  "  \"title\": " ++ jsonStr e.title ++ ",\n" ++
  "  \"department\": " ++ jsonStr e.department ++ ",\n" ++
  "  \"email\": " ++ jsonStr e.email ++ ",\n" ++
  "  \"phone\": " ++ jsonStrOrNull e.phone ++ ",\n" ++
  "  \"linkedin\": " ++ jsonStrOrNull e.linkedin ++ ",\n" ++
  "  \"headshot\": " ++ jsonStr e.headshot ++ ",\n" ++
  "  \"bioHtml\": " ++ jsonStr e.bioHtml ++ ",\n" ++
  "  \"media\": " ++
    (if e.media.isEmpty then "[]"
     else "[\n" ++ String.intercalate ",\n" (e.media.map fun m => "    " ++ jsonStr m) ++
       "\n  ]") ++
  "\n\x7d"

/-- `createEmployeeZip` (main.js:1247): successive `folder.file` writes
under the folder named by the slug — `data.json` (the pretty-printed
record), `contact.vcf` (the vCard text), the headshot blob under
`employeeData.headshot`, then every media blob under its filename; the
archive is generated only after the per-media counter reaches the media
count, i.e. after all writes. -/
def createEmployeeZip (slug : String) (employeeData : Employee) (vcard : String)
    (headshotFile : Blob) (mediaFiles : List (String × Blob)) :
    String → Option ZipData :=
  let f0 : String → Option ZipData := fun _ => none
  let f1 := zipFile f0 (slug ++ "/" ++ "data.json")
    (ZipData.text (stringifyEmployee employeeData))
  let f2 := zipFile f1 (slug ++ "/" ++ "contact.vcf") (ZipData.text vcard)
  let f3 := zipFile f2 (slug ++ "/" ++ employeeData.headshot) (ZipData.blob headshotFile)
  mediaFiles.foldl (fun arc m => zipFile arc (slug ++ "/" ++ m.1) (ZipData.blob m.2)) f3

/-- Modelled from the spec (§4.2 contract and §6 packaged-archive
layout), written from the spec's words: under the single top-level
folder named by the slug the archive holds exactly `data.json` (the
serialized record), `contact.vcf` (the contact-card text), the headshot
blob under its filename, and each media blob under its given filename —
nothing else at any other path. -/
def archiveLayoutSpec (slug : String) (e : Employee) (vcard : String)
    (headshotFile : Blob) (mediaFiles : List (String × Blob)) (path : String) :
    Option ZipData :=
  if path = slug ++ "/" ++ "data.json" then some (ZipData.text (stringifyEmployee e))
  else if path = slug ++ "/" ++ "contact.vcf" then some (ZipData.text vcard)
  else if path = slug ++ "/" ++ e.headshot then some (ZipData.blob headshotFile)
  else (mediaFiles.find? (fun m => slug ++ "/" ++ m.1 = path)).map fun m => ZipData.blob m.2

theorem string_data_inj {a b : String} (h : a.data = b.data) : a = b :=
  congrArg String.mk h

/-- Joining distinct basenames under the slug folder yields distinct
paths. -/
theorem slugPath_inj {slug a b : String} (h : slug ++ "/" ++ a = slug ++ "/" ++ b) :
    a = b := by
  have hd : (slug ++ "/").data ++ a.data = (slug ++ "/").data ++ b.data := by
    have := congrArg String.data h
    simpa [String.data_append] using this
  exact string_data_inj (List.append_inj_right hd rfl)

/-- Folding `folder.file` writes for media items with pairwise-distinct
filenames: the resulting archive serves each media path from its item
and every other path from the base archive. -/
theorem foldl_zipFile_nodup (slug : String) (mediaFiles : List (String × Blob))
    (hnd : (mediaFiles.map Prod.fst).Nodup) :
    ∀ (base : String → Option ZipData) (p : String),
      (mediaFiles.foldl
        (fun arc m => zipFile arc (slug ++ "/" ++ m.1) (ZipData.blob m.2)) base) p =
        match mediaFiles.find? (fun m => slug ++ "/" ++ m.1 = p) with
        | some m => some (ZipData.blob m.2)
        | none => base p := by
  induction mediaFiles with
  | nil => intro base p; rfl
  | cons m rest ih =>
    rw [List.map_cons, List.nodup_cons] at hnd
    obtain ⟨hm, hrest⟩ := hnd
    intro base p
    rw [List.foldl_cons, ih hrest]
    by_cases hp : slug ++ "/" ++ m.1 = p
    · have hnone : rest.find? (fun x => decide (slug ++ "/" ++ x.1 = p)) = none := by
        rw [List.find?_eq_none]
        intro x hx hpred
        rw [decide_eq_true_eq] at hpred
        have : x.1 = m.1 := slugPath_inj (hpred.trans hp.symm)
        exact hm (this ▸ List.mem_map_of_mem Prod.fst hx)
      rw [List.find?_cons_of_pos _ (by simpa using hp), hnone]
      simp [zipFile, hp]
    · rw [List.find?_cons_of_neg _ (by simpa using hp)]
      cases hfind : rest.find? (fun x => decide (slug ++ "/" ++ x.1 = p)) with
      | some x => simp [hfind]
      | none => simp [hfind, zipFile, Ne.symm hp]

/-- C5: the produced archive contains exactly one top-level folder named
by the slug, holding exactly the serialized record as `data.json`, the
contact card as `contact.vcf`, the headshot blob under its normalized
filename, and each media blob under its given filename — no extra and
no missing entries (pointwise equality with the spec-side layout map).
Hypotheses are the claim's side conditions: media filenames pairwise
distinct and distinct from `data.json`, `contact.vcf` and the headshot
filename, plus the record invariant that the headshot filename is
normalized (`"headshot" + extension`). -/
theorem createEmployeeZip_correct (slug : String) (e : Employee) (vcard : String)
    (headshotFile : Blob) (mediaFiles : List (String × Blob))
    (hhead : jsStartsWith e.headshot "headshot" = true)
    (hnd : (mediaFiles.map Prod.fst).Nodup)
    (hmedia : ∀ m ∈ mediaFiles,
      m.1 ≠ "data.json" ∧ m.1 ≠ "contact.vcf" ∧ m.1 ≠ e.headshot) :
    ∀ path, createEmployeeZip slug e vcard headshotFile mediaFiles path =
      archiveLayoutSpec slug e vcard headshotFile mediaFiles path := by
  intro p
  have hh1 : e.headshot ≠ "data.json" := by
    intro h; rw [h] at hhead; exact absurd hhead (by decide)
  have hh2 : e.headshot ≠ "contact.vcf" := by
    intro h; rw [h] at hhead; exact absurd hhead (by decide)
  have hfold := foldl_zipFile_nodup slug mediaFiles hnd
  show (mediaFiles.foldl
      (fun arc m => zipFile arc (slug ++ "/" ++ m.1) (ZipData.blob m.2)) _) p = _
  rw [hfold]
  cases hfind : mediaFiles.find? (fun m => decide (slug ++ "/" ++ m.1 = p)) with
  | some m =>
    have hmem := List.mem_of_find?_eq_some hfind
    have hpred : slug ++ "/" ++ m.1 = p := by
      have := List.find?_some hfind
      simpa using this
    obtain ⟨hm1, hm2, hm3⟩ := hmedia m hmem
    have hne1 : p ≠ slug ++ "/" ++ "data.json" := by
      intro h; exact hm1 (slugPath_inj (hpred.trans h))
    have hne2 : p ≠ slug ++ "/" ++ "contact.vcf" := by
      intro h; exact hm2 (slugPath_inj (hpred.trans h))
    have hne3 : p ≠ slug ++ "/" ++ e.headshot := by
      intro h; exact hm3 (slugPath_inj (hpred.trans h))
    rw [archiveLayoutSpec, if_neg hne1, if_neg hne2, if_neg hne3, hfind]
    rfl
  | none =>
    have hnotmedia : ∀ m ∈ mediaFiles, ¬(slug ++ "/" ++ m.1 = p) := by
      intro m hm hpm
      have := List.find?_eq_none.mp hfind m hm
      simp [hpm] at this
    by_cases h3 : p = slug ++ "/" ++ e.headshot
    · have hne1 : p ≠ slug ++ "/" ++ "data.json" := by
        intro h; exact hh1 (slugPath_inj ((h3.symm.trans h)))
      have hne2 : p ≠ slug ++ "/" ++ "contact.vcf" := by
        intro h; exact hh2 (slugPath_inj ((h3.symm.trans h)))
      rw [archiveLayoutSpec, if_neg hne1, if_neg hne2, if_pos h3]
      simp [zipFile, h3]
    · by_cases h2 : p = slug ++ "/" ++ "contact.vcf"
      · have hne1 : p ≠ slug ++ "/" ++ "data.json" := by
          intro h
          have : "contact.vcf" = "data.json" := slugPath_inj ((h2.symm.trans h))
          exact absurd this (by decide)
        have hch : ¬(slug ++ "/" ++ "contact.vcf" = slug ++ "/" ++ e.headshot) :=
          fun h => hh2 (slugPath_inj h).symm
        rw [archiveLayoutSpec, if_neg hne1, if_pos h2]
        simp [zipFile, h2, hch]
      · by_cases h1 : p = slug ++ "/" ++ "data.json"
        · have hdh : ¬(slug ++ "/" ++ "data.json" = slug ++ "/" ++ e.headshot) :=
            fun h => hh1 (slugPath_inj h).symm
          have hdc : ¬(slug ++ "/" ++ "data.json" = slug ++ "/" ++ "contact.vcf") :=
            fun h => absurd (slugPath_inj h) (by decide)
          rw [archiveLayoutSpec, if_pos h1]
          simp [zipFile, h1, hdh, hdc]
        · rw [archiveLayoutSpec, if_neg h1, if_neg h2, if_neg h3, hfind]
          simp [zipFile, h3, h2, h1]

/-- Concrete instance of `createEmployeeZip_correct`, evaluated at the
`data.json` path of a one-media-item archive. -/
theorem createEmployeeZip_correct_witness :
    (jsStartsWith "headshot.jpg" "headshot" = true) ∧
      ((([("hiking.gif", [1, 2, 3])] : List (String × Blob)).map Prod.fst).Nodup) ∧
      (createEmployeeZip "john--doe"
          { slug := "john--doe", firstName := "John", lastName := "Doe",
            title := "Engineer", department := "R&D", email := "jd@x.com",
            phone := none, linkedin := none,
            headshot := "headshot.jpg", bioHtml := "<p>hi</p>",
            media := ["hiking.gif"] }
          "BEGIN:VCARD" [9, 9] [("hiking.gif", [1, 2, 3])] "john--doe/data.json" =
        archiveLayoutSpec "john--doe"
          { slug := "john--doe", firstName := "John", lastName := "Doe",
            title := "Engineer", department := "R&D", email := "jd@x.com",
            phone := none, linkedin := none,
            headshot := "headshot.jpg", bioHtml := "<p>hi</p>",
            media := ["hiking.gif"] }
          "BEGIN:VCARD" [9, 9] [("hiking.gif", [1, 2, 3])] "john--doe/data.json") :=
  ⟨by decide, by decide,
   createEmployeeZip_correct "john--doe"
     { slug := "john--doe", firstName := "John", lastName := "Doe",
       title := "Engineer", department := "R&D", email := "jd@x.com",
       phone := none, linkedin := none,
       headshot := "headshot.jpg", bioHtml := "<p>hi</p>",
       media := ["hiking.gif"] }
     "BEGIN:VCARD" [9, 9] [("hiking.gif", [1, 2, 3])]
     (by decide) (by decide)
     (by intro m hm; simp at hm; subst hm; exact ⟨by decide, by decide, by decide⟩)
     "john--doe/data.json"⟩

/-! ## Claim C6: profile bio rewriting -/

/-- The bio-rewriting slice of `renderProfile` (main.js:1554–1566): for
each image of the bio markup, when the `src` attribute is non-empty
(`src &&`) and does not start with `http`, the image is pointed at
`BASE_URL + '/' + slug + '/' + src`; otherwise it is left untouched. -/
def renderProfileBio (slug : String) (bio : List BioNode) : List BioNode :=
  bio.map fun n =>
    match n with
    | .img src t =>
        if src ≠ "" && !(jsStartsWith src "http") then
          BioNode.img (BASE_URL ++ "/" ++ slug ++ "/" ++ src) t
        else BioNode.img src t
    | .elem s => BioNode.elem s

/-- C6: when the profile is rendered, an image reference that is an
external URL (starts with `http`) is left untouched, and a non-empty
local reference is rewritten to the absolute slug-folder address
`BASE_URL + '/' + slug + '/' + src`, position by position. -/
theorem renderProfileBio_correct (slug : String) (bio : List BioNode) (i : Nat)
    (src t : String) (hi : bio[i]? = some (BioNode.img src t)) :
    (jsStartsWith src "http" = true →
      (renderProfileBio slug bio)[i]? = some (BioNode.img src t)) ∧
    (jsStartsWith src "http" = false → src ≠ "" →
      (renderProfileBio slug bio)[i]? =
        some (BioNode.img (BASE_URL ++ "/" ++ slug ++ "/" ++ src) t)) := by
  constructor
  · intro h
    rw [renderProfileBio, List.getElem?_map, hi]
    simp [h]
  · intro h hne
    rw [renderProfileBio, List.getElem?_map, hi]
    simp [h, hne]

/-- Concrete instance of `renderProfileBio_correct`: a bare local
filename is rewritten into the slug folder. -/
theorem renderProfileBio_correct_witness :
    (([BioNode.img "pic.jpg" "t"] : List BioNode)[0]? =
        some (BioNode.img "pic.jpg" "t")) ∧
      (renderProfileBio "john-doe" [BioNode.img "pic.jpg" "t"])[0]? =
        some (BioNode.img "/employee-cards/john-doe/pic.jpg" "t") :=
  ⟨by decide,
   (renderProfileBio_correct "john-doe" [BioNode.img "pic.jpg" "t"] 0 "pic.jpg" "t"
       (by decide)).2 (by decide) (by decide)⟩

/-! ## JavaScript values

The directory and profile logic never inspects the contents of a parsed
record beyond its truthiness, so composite values carry an opaque-free
identifier in place of their contents. -/

/-- A parsed JSON value, as far as the page logic observes it. -/
inductive JsVal where
  | vnull
  | vbool (b : Bool)
  | vnum (n : Int)
  | vstr (s : String)
  | vobj (id : Nat)
  | varr (id : Nat)
deriving DecidableEq

/-- JavaScript truthiness: `null`, `false`, `0` and `''` are falsy;
objects and arrays are always truthy. -/
def JsVal.truthy : JsVal → Bool
  | .vnull => false
  | .vbool b => b
  | .vnum n => n ≠ 0
  | .vstr s => s ≠ ""
  | .vobj _ => true
  | .varr _ => true

/-! ## Claims C7, C8, C10: profile page error handling -/

/-- The three ways a `fetchJson` promise can settle (main.js:892): a
parsed value, a non-ok HTTP response (the `!response.ok` throw), or a
body that fails to parse (`response.json()` rejecting). -/
inductive FetchResult where
  | ok (v : JsVal)
  | httpError (status : Nat)
  | parseError
deriving DecidableEq

/-- The terminal state of the profile page. -/
inductive ProfileState where
  | rendered (employee : JsVal)
  | error (message : String)
deriving DecidableEq

/-- `loadProfile` (main.js:1474): fetch the record at the slug-derived
address; on success render it; on any rejection — non-ok response and
unparsable body alike land in the single `.catch` — show
`'Employee not found: ' + slug`. -/
def loadProfile (slug : String) (result : FetchResult) : ProfileState :=
  match result with
  | .ok v => ProfileState.rendered v
  | .httpError _ => ProfileState.error ("Employee not found: " ++ slug)
  | .parseError => ProfileState.error ("Employee not found: " ++ slug)

/-- C7 counterexample: the state for a slug with no backing record
(HTTP 404) is NOT distinct from the state for a record that exists but
is malformed — both land in the same `.catch` and produce the identical
"Employee not found" state. -/
theorem loadProfile_not_distinct :
    loadProfile "ghost" (FetchResult.httpError 404) =
        loadProfile "ghost" FetchResult.parseError ∧
      loadProfile "ghost" (FetchResult.httpError 404) =
        ProfileState.error ("Employee not found: ghost") := by
  constructor
  · rfl
  · rfl

/-- C7 (amended): a direct profile lookup that fails for any reason —
no backing record, or a record that exists but is malformed — yields the
same terminal "not found" error state carrying the requested slug; the
pipeline never falls back to the directory index (the result is this
error state, not any directory rendering). -/
theorem loadProfile_amended (slug : String) (r : FetchResult)
    (h : ∀ v, r ≠ FetchResult.ok v) :
    loadProfile slug r = ProfileState.error ("Employee not found: " ++ slug) := by
  cases r with
  | ok v => exact absurd rfl (h v)
  | httpError s => rfl
  | parseError => rfl

/-- Concrete instance of `loadProfile_amended` at a missing record. -/
theorem loadProfile_amended_witness :
    (∀ v, FetchResult.httpError 404 ≠ FetchResult.ok v) ∧
      loadProfile "ghost" (FetchResult.httpError 404) =
        ProfileState.error ("Employee not found: " ++ "ghost") :=
  ⟨fun _ h => FetchResult.noConfusion h,
   loadProfile_amended "ghost" (FetchResult.httpError 404)
     (fun _ h => FetchResult.noConfusion h)⟩

/-- `getQueryParam` (main.js:822) over the parsed query-parameter list:
`URLSearchParams.get` returns the first value bound to the name, or
null (`none`) when the parameter is absent. -/
def getQueryParam (params : List (String × String)) (name : String) : Option String :=
  (params.find? (fun p => p.1 = name)).map Prod.snd

/-- The outcome of `initProfilePage` (main.js:1464): either the terminal
"no employee specified" state, or a `loadProfile` fetch for the slug. -/
inductive ProfileInit where
  | missingParam (message : String)
  | fetchProfile (slug : String)
deriving DecidableEq

/-- `initProfilePage` (main.js:1464): reads `person` and tests
`if (!person)` — both a missing parameter (`null`) and an empty-valued
one (`''`) are falsy and reach `showProfileError` without any fetch;
otherwise `loadProfile(person)` runs. -/
def initProfilePage (params : List (String × String)) : ProfileInit :=
  match getQueryParam params "person" with
  | none => ProfileInit.missingParam "No employee specified. Use ?person={slug}"
  | some p =>
      if p = "" then ProfileInit.missingParam "No employee specified. Use ?person={slug}"
      else ProfileInit.fetchProfile p

/-- C8: with no `person` query parameter, the profile page yields the
terminal "no employee specified" state and performs no record fetch at
all (the outcome is the missing-parameter state, not a fetch). -/
theorem initProfilePage_missing (params : List (String × String))
    (h : getQueryParam params "person" = none) :
    initProfilePage params =
      ProfileInit.missingParam "No employee specified. Use ?person={slug}" := by
  rw [initProfilePage, h]

/-- Concrete instance of `initProfilePage_missing`: a query string with
only unrelated parameters. -/
theorem initProfilePage_missing_witness :
    getQueryParam [("tab", "bio")] "person" = none ∧
      initProfilePage [("tab", "bio")] =
        ProfileInit.missingParam "No employee specified. Use ?person={slug}" :=
  ⟨by decide, initProfilePage_missing [("tab", "bio")] (by decide)⟩

/-- C10: a present-but-empty `person` parameter (`?person=`) is treated
identically to an absent one — the same "no employee specified" state,
and no fetch for the empty slug. -/
theorem initProfilePage_empty_param (params : List (String × String))
    (h : getQueryParam params "person" = some "") :
    initProfilePage params = initProfilePage [] ∧
      initProfilePage params =
        ProfileInit.missingParam "No employee specified. Use ?person={slug}" := by
  constructor
  · rw [initProfilePage, h]
    rfl
  · rw [initProfilePage, h]
    rfl

/-- Concrete instance of `initProfilePage_empty_param` at `?person=`. -/
theorem initProfilePage_empty_param_witness :
    getQueryParam [("person", "")] "person" = some "" ∧
      (initProfilePage [("person", "")] = initProfilePage [] ∧
        initProfilePage [("person", "")] =
          ProfileInit.missingParam "No employee specified. Use ?person={slug}") :=
  ⟨by decide, initProfilePage_empty_param [("person", "")] (by decide)⟩

/-! ## Claims C1, C9: the directory resolver

`loadDirectory` (main.js:1355) issues one fetch per slug; each callback
writes only its own slot `cards[index]`, bumps `loaded` or `failed`, and
renders the filtered cards once `loaded + failed` reaches the slug
count.  The asynchronous fan-in is embedded as a fold of the settle
events over an arbitrary arrival order (a permutation of the indices);
`outcome i = some v` means lookup `i` resolves with parsed value `v`,
`none` means it rejects. -/

/-- The mutable state of one `loadDirectory` pass: the sparse `cards`
array (one slot per input index), the two counters, and the renders
fired so far. -/
structure DirState (n : Nat) where
  cards : Fin n → Option JsVal
  loaded : Nat
  failed : Nat
  rendered : List (List JsVal)

/-- `cards.filter(function(c) \x7b return c; \x7d)` (main.js:1380): the
slots in index order, holes skipped and falsy values dropped. -/
def renderedCards (n : Nat) (cards : Fin n → Option JsVal) : List JsVal :=
  (List.finRange n).filterMap fun i =>
    match cards i with
    | some v => if v.truthy then some v else none
    | none => none

/-- The completion check both callbacks perform: when
`loaded + failed === EMPLOYEE_SLUGS.length`, `renderDirectoryCards`
fires with the filtered cards. -/
def dirCheckRender {n : Nat} (st : DirState n) : DirState n :=
  if st.loaded + st.failed = n then
    { st with rendered := st.rendered ++ [renderedCards n st.cards] }
  else st

/-- Lookup `i` settling: on resolution `cards[index] = employeeData`
and `loaded++`, on rejection `failed++`; each callback then checks for
completion. -/
def dirStep {n : Nat} (outcome : Fin n → Option JsVal) (st : DirState n) (i : Fin n) :
    DirState n :=
  match outcome i with
  | some v => dirCheckRender
      { st with cards := Function.update st.cards i (some v), loaded := st.loaded + 1 }
  | none => dirCheckRender { st with failed := st.failed + 1 }

/-- The state before any lookup settles. -/
def dirInit (n : Nat) : DirState n :=
  ⟨fun _ => none, 0, 0, []⟩

/-- One full `loadDirectory` resolution pass, the lookups settling in
the given arrival order. -/
def runDirectory (n : Nat) (outcome : Fin n → Option JsVal) (order : List (Fin n)) :
    DirState n :=
  order.foldl (dirStep outcome) (dirInit n)

theorem dirCheckRender_cards {n : Nat} (st : DirState n) :
    (dirCheckRender st).cards = st.cards := by
  rw [dirCheckRender]
  split <;> rfl

theorem dirCheckRender_loaded {n : Nat} (st : DirState n) :
    (dirCheckRender st).loaded = st.loaded := by
  rw [dirCheckRender]
  split <;> rfl

theorem dirCheckRender_failed {n : Nat} (st : DirState n) :
    (dirCheckRender st).failed = st.failed := by
  rw [dirCheckRender]
  split <;> rfl

theorem dirCheckRender_rendered_pos {n : Nat} (st : DirState n)
    (h : st.loaded + st.failed = n) :
    (dirCheckRender st).rendered = st.rendered ++ [renderedCards n st.cards] := by
  rw [dirCheckRender, if_pos h]

theorem dirCheckRender_rendered_neg {n : Nat} (st : DirState n)
    (h : ¬(st.loaded + st.failed = n)) :
    (dirCheckRender st).rendered = st.rendered := by
  rw [dirCheckRender, if_neg h]

theorem dirStep_cards {n : Nat} (outcome : Fin n → Option JsVal) (st : DirState n)
    (i j : Fin n) :
    (dirStep outcome st i).cards j =
      if j = i ∧ (outcome i).isSome then outcome i else st.cards j := by
  cases ho : outcome i with
  | some v =>
    simp only [dirStep, ho]
    rw [dirCheckRender_cards]
    by_cases hj : j = i
    · subst hj
      simp [Function.update_apply]
    · simp [Function.update_apply, hj]
  | none =>
    simp only [dirStep, ho]
    rw [dirCheckRender_cards]
    simp

theorem dirStep_count {n : Nat} (outcome : Fin n → Option JsVal) (st : DirState n)
    (i : Fin n) :
    (dirStep outcome st i).loaded + (dirStep outcome st i).failed =
      st.loaded + st.failed + 1 := by
  cases ho : outcome i with
  | some v =>
    simp only [dirStep, ho]
    rw [dirCheckRender_loaded, dirCheckRender_failed]
    show st.loaded + 1 + st.failed = st.loaded + st.failed + 1
    omega
  | none =>
    simp only [dirStep, ho]
    rw [dirCheckRender_loaded, dirCheckRender_failed]
    show st.loaded + (st.failed + 1) = st.loaded + st.failed + 1
    omega

theorem dirStep_rendered_notyet {n : Nat} (outcome : Fin n → Option JsVal)
    (st : DirState n) (i : Fin n) (h : st.loaded + st.failed + 1 ≠ n) :
    (dirStep outcome st i).rendered = st.rendered := by
  cases ho : outcome i with
  | some v =>
    simp only [dirStep, ho]
    rw [dirCheckRender_rendered_neg]
    show ¬(st.loaded + 1 + st.failed = n)
    omega
  | none =>
    simp only [dirStep, ho]
    rw [dirCheckRender_rendered_neg]
    show ¬(st.loaded + (st.failed + 1) = n)
    omega

theorem dirStep_rendered_last {n : Nat} (outcome : Fin n → Option JsVal)
    (st : DirState n) (i : Fin n) (h : st.loaded + st.failed + 1 = n) :
    (dirStep outcome st i).rendered =
      st.rendered ++ [renderedCards n (dirStep outcome st i).cards] := by
  cases ho : outcome i with
  | some v =>
    simp only [dirStep, ho]
    rw [dirCheckRender_rendered_pos _ (by show st.loaded + 1 + st.failed = n; omega),
      dirCheckRender_cards]
  | none =>
    simp only [dirStep, ho]
    rw [dirCheckRender_rendered_pos _ (by show st.loaded + (st.failed + 1) = n; omega),
      dirCheckRender_cards]

/-- After a batch of settle events, a slot holds its lookup's resolved
value when that lookup was among them, and is otherwise untouched —
each event writes only its own slot. -/
theorem foldl_dirStep_cards {n : Nat} (outcome : Fin n → Option JsVal) :
    ∀ (l : List (Fin n)) (st : DirState n) (j : Fin n),
      ((l.foldl (dirStep outcome) st).cards) j =
        if j ∈ l ∧ (outcome j).isSome then outcome j else st.cards j := by
  intro l
  induction l with
  | nil =>
    intro st j
    simp
  | cons i rest ih =>
    intro st j
    rw [List.foldl_cons, ih]
    by_cases hj : j ∈ rest ∧ (outcome j).isSome
    · rw [if_pos hj, if_pos ⟨List.mem_cons_of_mem i hj.1, hj.2⟩]
    · rw [if_neg hj, dirStep_cards]
      by_cases hji : j = i ∧ (outcome i).isSome
      · obtain ⟨h1, h2⟩ := hji
        subst h1
        rw [if_pos ⟨rfl, h2⟩, if_pos ⟨List.mem_cons_self j rest, h2⟩]
      · rw [if_neg hji]
        have hnot : ¬(j ∈ i :: rest ∧ (outcome j).isSome) := by
          rintro ⟨hm, hs⟩
          rcases List.mem_cons.mp hm with h | h
          · exact hji ⟨h, h ▸ hs⟩
          · exact hj ⟨h, hs⟩
        rw [if_neg hnot]

/-- `loaded + failed` counts exactly the settled lookups. -/
theorem foldl_dirStep_count {n : Nat} (outcome : Fin n → Option JsVal) :
    ∀ (l : List (Fin n)) (st : DirState n),
      (l.foldl (dirStep outcome) st).loaded + (l.foldl (dirStep outcome) st).failed =
        st.loaded + st.failed + l.length := by
  intro l
  induction l with
  | nil =>
    intro st
    simp
  | cons i rest ih =>
    intro st
    rw [List.foldl_cons, ih, dirStep_count]
    simp
    omega

/-- When the batch completes the count exactly, the render fires exactly
once, at the last event, with the final cards. -/
theorem foldl_dirStep_rendered {n : Nat} (outcome : Fin n → Option JsVal) :
    ∀ (l : List (Fin n)) (st : DirState n),
      st.loaded + st.failed + l.length = n → l ≠ [] →
      (l.foldl (dirStep outcome) st).rendered =
        st.rendered ++ [renderedCards n ((l.foldl (dirStep outcome) st).cards)] := by
  intro l
  induction l with
  | nil =>
    intro st _ hne
    exact absurd rfl hne
  | cons i rest ih =>
    intro st hsum hne
    rw [List.foldl_cons]
    by_cases hr : rest = []
    · subst hr
      simp only [List.foldl_nil]
      apply dirStep_rendered_last
      simpa using hsum
    · have hlt : st.loaded + st.failed + 1 ≠ n := by
        have : rest.length ≥ 1 := by
          cases rest with
          | nil => exact absurd rfl hr
          | cons a b => simp
        simp only [List.length_cons] at hsum
        omega
      have hcount := dirStep_count outcome st i
      have hsum' : (dirStep outcome st i).loaded + (dirStep outcome st i).failed +
          rest.length = n := by
        rw [hcount]
        simp only [List.length_cons] at hsum
        omega
      rw [ih (dirStep outcome st i) hsum' hr,
        dirStep_rendered_notyet outcome st i hlt]

/-- The renderer is invoked exactly once, after every lookup has
settled, with the index-ordered filtered slots. -/
theorem runDirectory_rendered (n : Nat) (outcome : Fin n → Option JsVal)
    (order : List (Fin n)) (hperm : order.Perm (List.finRange n)) (hn : 0 < n) :
    (runDirectory n outcome order).rendered =
      [(List.finRange n).filterMap fun i =>
        match outcome i with
        | some v => if v.truthy then some v else none
        | none => none] := by
  have hlen : order.length = n := by
    rw [hperm.length_eq, List.length_finRange]
  have hne : order ≠ [] := by
    intro h
    rw [h] at hlen
    simp at hlen
    omega
  have hsum : (dirInit n).loaded + (dirInit n).failed + order.length = n := by
    simp [dirInit, hlen]
  have hmain := foldl_dirStep_rendered outcome order (dirInit n) hsum hne
  have hcards : ((order.foldl (dirStep outcome) (dirInit n)).cards) = outcome := by
    funext j
    rw [foldl_dirStep_cards]
    have hmem : j ∈ order := hperm.mem_iff.mpr (List.mem_finRange j)
    cases hout : outcome j with
    | some v => rw [if_pos ⟨hmem, rfl⟩]
    | none =>
      rw [if_neg]
      · rfl
      · rintro ⟨_, hs⟩
        simp at hs
  rw [runDirectory] at *
  rw [hmain, hcards]
  rfl

/-- C1: for every identifier sequence, every success/failure assignment
to the lookups, and every order in which they complete, the list handed
to the renderer once all lookups have settled is exactly the
successfully resolved records in the original index order — a
later-arriving lookup for an earlier slug never shifts position, and a
failed slug is simply omitted.  Successful lookups are assumed to
resolve to records, which are objects and hence truthy (claim C9 covers
falsy successes). -/
theorem loadDirectory_order_preserved (n : Nat) (outcome : Fin n → Option JsVal)
    (order : List (Fin n)) (hperm : order.Perm (List.finRange n)) (hn : 0 < n)
    (htruthy : ∀ i v, outcome i = some v → v.truthy = true) :
    (runDirectory n outcome order).rendered =
      [(List.finRange n).filterMap outcome] := by
  rw [runDirectory_rendered n outcome order hperm hn]
  congr 1
  apply List.filterMap_congr
  intro i _
  cases hout : outcome i with
  | some v => simp [htruthy i v hout]
  | none => rfl

/-- Concrete instance of `loadDirectory_order_preserved`: three slugs,
the middle lookup fails, the order of arrival is middle, first, last —
the render still lists the first and last records in index order. -/
theorem loadDirectory_order_preserved_witness :
    (([1, 0, 2] : List (Fin 3)).Perm (List.finRange 3)) ∧
      (0 : Nat) < 3 ∧
      (∀ i v,
        (fun j : Fin 3 =>
          if j = 0 then some (JsVal.vobj 1)
          else if j = 2 then some (JsVal.vobj 2) else none) i = some v →
        v.truthy = true) ∧
      (runDirectory 3
        (fun j : Fin 3 =>
          if j = 0 then some (JsVal.vobj 1)
          else if j = 2 then some (JsVal.vobj 2) else none) [1, 0, 2]).rendered =
        [(List.finRange 3).filterMap
          (fun j : Fin 3 =>
            if j = 0 then some (JsVal.vobj 1)
            else if j = 2 then some (JsVal.vobj 2) else none)] :=
  ⟨by decide, by decide,
   by
     intro i v h
     fin_cases i
     · simp at h
       subst h
       rfl
     · simp at h
     · simp at h
       subst h
       rfl,
   loadDirectory_order_preserved 3
     (fun j : Fin 3 =>
       if j = 0 then some (JsVal.vobj 1)
       else if j = 2 then some (JsVal.vobj 2) else none)
     [1, 0, 2] (by decide) (by decide)
     (by
       intro i v h
       fin_cases i
       · simp at h
         subst h
         rfl
       · simp at h
       · simp at h
         subst h
         rfl)⟩

/-! ### The management view (`loadManageList`, main.js:1663)

Identical fan-in, except that a single `loaded` counter counts both
resolutions and rejections, and the filtered list feeds
`renderManageList`. -/

/-- The mutable state of one `loadManageList` pass. -/
structure ManageState (n : Nat) where
  employees : Fin n → Option JsVal
  loaded : Nat
  rendered : List (List JsVal)

/-- The completion check of `loadManageList`: render once
`loaded === EMPLOYEE_SLUGS.length`. -/
def manageCheckRender {n : Nat} (st : ManageState n) : ManageState n :=
  if st.loaded = n then
    { st with rendered := st.rendered ++ [renderedCards n st.employees] }
  else st

/-- Lookup `i` settling in `loadManageList`: `employees[index]` is
written on resolution; `loaded++` happens on both resolution and
rejection. -/
def manageStep {n : Nat} (outcome : Fin n → Option JsVal) (st : ManageState n)
    (i : Fin n) : ManageState n :=
  match outcome i with
  | some v => manageCheckRender
      { st with employees := Function.update st.employees i (some v),
                loaded := st.loaded + 1 }
  | none => manageCheckRender { st with loaded := st.loaded + 1 }

/-- One full `loadManageList` resolution pass. -/
def runManage (n : Nat) (outcome : Fin n → Option JsVal) (order : List (Fin n)) :
    ManageState n :=
  order.foldl (manageStep outcome) ⟨fun _ => none, 0, []⟩

theorem manageCheckRender_employees {n : Nat} (st : ManageState n) :
    (manageCheckRender st).employees = st.employees := by
  rw [manageCheckRender]
  split <;> rfl

theorem manageCheckRender_loaded {n : Nat} (st : ManageState n) :
    (manageCheckRender st).loaded = st.loaded := by
  rw [manageCheckRender]
  split <;> rfl

theorem manageStep_employees {n : Nat} (outcome : Fin n → Option JsVal)
    (st : ManageState n) (i j : Fin n) :
    (manageStep outcome st i).employees j =
      if j = i ∧ (outcome i).isSome then outcome i else st.employees j := by
  cases ho : outcome i with
  | some v =>
    simp only [manageStep, ho]
    rw [manageCheckRender_employees]
    by_cases hj : j = i
    · subst hj
      simp [Function.update_apply]
    · simp [Function.update_apply, hj]
  | none =>
    simp only [manageStep, ho]
    rw [manageCheckRender_employees]
    simp

theorem manageStep_loaded {n : Nat} (outcome : Fin n → Option JsVal)
    (st : ManageState n) (i : Fin n) :
    (manageStep outcome st i).loaded = st.loaded + 1 := by
  cases ho : outcome i with
  | some v =>
    simp only [manageStep, ho]
    rw [manageCheckRender_loaded]
  | none =>
    simp only [manageStep, ho]
    rw [manageCheckRender_loaded]

theorem manageStep_rendered_notyet {n : Nat} (outcome : Fin n → Option JsVal)
    (st : ManageState n) (i : Fin n) (h : st.loaded + 1 ≠ n) :
    (manageStep outcome st i).rendered = st.rendered := by
  cases ho : outcome i with
  | some v =>
    simp only [manageStep, ho]
    rw [manageCheckRender, if_neg (show ¬(st.loaded + 1 = n) from h)]
  | none =>
    simp only [manageStep, ho]
    rw [manageCheckRender, if_neg (show ¬(st.loaded + 1 = n) from h)]

theorem manageStep_rendered_last {n : Nat} (outcome : Fin n → Option JsVal)
    (st : ManageState n) (i : Fin n) (h : st.loaded + 1 = n) :
    (manageStep outcome st i).rendered =
      st.rendered ++ [renderedCards n (manageStep outcome st i).employees] := by
  cases ho : outcome i with
  | some v =>
    simp only [manageStep, ho]
    rw [manageCheckRender, if_pos (show st.loaded + 1 = n from h)]
  | none =>
    simp only [manageStep, ho]
    rw [manageCheckRender, if_pos (show st.loaded + 1 = n from h)]

theorem foldl_manageStep_employees {n : Nat} (outcome : Fin n → Option JsVal) :
    ∀ (l : List (Fin n)) (st : ManageState n) (j : Fin n),
      ((l.foldl (manageStep outcome) st).employees) j =
        if j ∈ l ∧ (outcome j).isSome then outcome j else st.employees j := by
  intro l
  induction l with
  | nil =>
    intro st j
    simp
  | cons i rest ih =>
    intro st j
    rw [List.foldl_cons, ih]
    by_cases hj : j ∈ rest ∧ (outcome j).isSome
    · rw [if_pos hj, if_pos ⟨List.mem_cons_of_mem i hj.1, hj.2⟩]
    · rw [if_neg hj, manageStep_employees]
      by_cases hji : j = i ∧ (outcome i).isSome
      · obtain ⟨h1, h2⟩ := hji
        subst h1
        rw [if_pos ⟨rfl, h2⟩, if_pos ⟨List.mem_cons_self j rest, h2⟩]
      · rw [if_neg hji]
        have hnot : ¬(j ∈ i :: rest ∧ (outcome j).isSome) := by
          rintro ⟨hm, hs⟩
          rcases List.mem_cons.mp hm with h | h
          · exact hji ⟨h, h ▸ hs⟩
          · exact hj ⟨h, hs⟩
        rw [if_neg hnot]

theorem foldl_manageStep_loaded {n : Nat} (outcome : Fin n → Option JsVal) :
    ∀ (l : List (Fin n)) (st : ManageState n),
      (l.foldl (manageStep outcome) st).loaded = st.loaded + l.length := by
  intro l
  induction l with
  | nil =>
    intro st
    simp
  | cons i rest ih =>
    intro st
    rw [List.foldl_cons, ih, manageStep_loaded]
    simp only [List.length_cons]
    omega

theorem foldl_manageStep_rendered {n : Nat} (outcome : Fin n → Option JsVal) :
    ∀ (l : List (Fin n)) (st : ManageState n),
      st.loaded + l.length = n → l ≠ [] →
      (l.foldl (manageStep outcome) st).rendered =
        st.rendered ++ [renderedCards n ((l.foldl (manageStep outcome) st).employees)] := by
  intro l
  induction l with
  | nil =>
    intro st _ hne
    exact absurd rfl hne
  | cons i rest ih =>
    intro st hsum hne
    rw [List.foldl_cons]
    by_cases hr : rest = []
    · subst hr
      simp only [List.foldl_nil]
      apply manageStep_rendered_last
      simpa using hsum
    · have hlt : st.loaded + 1 ≠ n := by
        have : rest.length ≥ 1 := by
          cases rest with
          | nil => exact absurd rfl hr
          | cons a b => simp
        simp only [List.length_cons] at hsum
        omega
      have hsum' : (manageStep outcome st i).loaded + rest.length = n := by
        rw [manageStep_loaded]
        simp only [List.length_cons] at hsum
        omega
      rw [ih (manageStep outcome st i) hsum' hr,
        manageStep_rendered_notyet outcome st i hlt]

/-- The management renderer is likewise invoked exactly once, with the
index-ordered filtered slots. -/
theorem runManage_rendered (n : Nat) (outcome : Fin n → Option JsVal)
    (order : List (Fin n)) (hperm : order.Perm (List.finRange n)) (hn : 0 < n) :
    (runManage n outcome order).rendered =
      [(List.finRange n).filterMap fun i =>
        match outcome i with
        | some v => if v.truthy then some v else none
        | none => none] := by
  have hlen : order.length = n := by
    rw [hperm.length_eq, List.length_finRange]
  have hne : order ≠ [] := by
    intro h
    rw [h] at hlen
    simp at hlen
    omega
  have hsum : (⟨fun _ => none, 0, []⟩ : ManageState n).loaded + order.length = n := by
    simpa using hlen
  have hmain := foldl_manageStep_rendered outcome order ⟨fun _ => none, 0, []⟩ hsum hne
  have hemp : ((order.foldl (manageStep outcome) ⟨fun _ => none, 0, []⟩).employees)
      = outcome := by
    funext j
    rw [foldl_manageStep_employees]
    have hmem : j ∈ order := hperm.mem_iff.mpr (List.mem_finRange j)
    cases hout : outcome j with
    | some v => rw [if_pos ⟨hmem, rfl⟩]
    | none =>
      rw [if_neg]
      rintro ⟨_, hs⟩
      simp at hs
  rw [runManage] at *
  rw [hmain, hemp]
  rfl

/-- C9: in both the directory and the management view, a lookup that
succeeds but parses to a falsy JSON value (null, false, 0, or the empty
string) is counted as settled — the resolution pass completes with
`loaded + failed = n` — yet the value is silently excluded by the
truthiness filter: the rendered output is identical to that of a run in
which that lookup failed outright. -/
theorem falsy_success_silently_excluded (n : Nat) (outcome : Fin n → Option JsVal)
    (order : List (Fin n)) (i : Fin n) (v : JsVal)
    (hperm : order.Perm (List.finRange n)) (hi : outcome i = some v)
    (hfalsy : v.truthy = false) :
    (runDirectory n outcome order).rendered =
        (runDirectory n (Function.update outcome i none) order).rendered ∧
      (runManage n outcome order).rendered =
        (runManage n (Function.update outcome i none) order).rendered ∧
      (runDirectory n outcome order).loaded + (runDirectory n outcome order).failed = n := by
  have hn : 0 < n := i.pos
  have hfm : (fun j =>
      match outcome j with
      | some w => if w.truthy then some w else none
      | none => none) =
      (fun j =>
        match Function.update outcome i none j with
        | some w => if w.truthy then some w else none
        | none => (none : Option JsVal)) := by
    funext j
    by_cases hj : j = i
    · subst hj
      rw [hi]
      simp [hfalsy, Function.update_apply]
    · rw [Function.update_noteq hj]
  refine ⟨?_, ?_, ?_⟩
  · rw [runDirectory_rendered n outcome order hperm hn,
      runDirectory_rendered n (Function.update outcome i none) order hperm hn]
    rw [hfm]
  · rw [runManage_rendered n outcome order hperm hn,
      runManage_rendered n (Function.update outcome i none) order hperm hn]
    rw [hfm]
  · rw [runDirectory, foldl_dirStep_count]
    simp [dirInit, hperm.length_eq]

/-- Concrete instance of `falsy_success_silently_excluded`: two slugs,
the first parses to JSON `null`, the second to an object. -/
theorem falsy_success_silently_excluded_witness :
    (([0, 1] : List (Fin 2)).Perm (List.finRange 2)) ∧
      ((fun j : Fin 2 => if j = 0 then some JsVal.vnull else some (JsVal.vobj 5)) 0 =
        some JsVal.vnull) ∧
      JsVal.vnull.truthy = false ∧
      ((runDirectory 2
          (fun j : Fin 2 => if j = 0 then some JsVal.vnull else some (JsVal.vobj 5))
          [0, 1]).rendered =
        (runDirectory 2
          (Function.update
            (fun j : Fin 2 => if j = 0 then some JsVal.vnull else some (JsVal.vobj 5))
            0 none) [0, 1]).rendered ∧
       (runManage 2
          (fun j : Fin 2 => if j = 0 then some JsVal.vnull else some (JsVal.vobj 5))
          [0, 1]).rendered =
        (runManage 2
          (Function.update
            (fun j : Fin 2 => if j = 0 then some JsVal.vnull else some (JsVal.vobj 5))
            0 none) [0, 1]).rendered ∧
       (runDirectory 2
          (fun j : Fin 2 => if j = 0 then some JsVal.vnull else some (JsVal.vobj 5))
          [0, 1]).loaded +
         (runDirectory 2
          (fun j : Fin 2 => if j = 0 then some JsVal.vnull else some (JsVal.vobj 5))
          [0, 1]).failed = 2) :=
  ⟨by decide, by decide, by decide,
   falsy_success_silently_excluded 2
     (fun j : Fin 2 => if j = 0 then some JsVal.vnull else some (JsVal.vobj 5))
     [0, 1] 0 JsVal.vnull (by decide) (by decide) (by decide)⟩

end EmployeeCards
